import Mathlib

/-!
Verification development for a reflected-XSS scanner consisting of a crawler
(`Crawler.py`), a request executor (`request.py`), a payload catalog
(`payloads.py`) and a two-phase detector (`xss.py`).  Python functions are
shallowly embedded as executable Lean definitions; stateful loops become
explicit recursion, the network becomes an oracle function, and Python
exceptions become `Except`/`Option` values.  Character-level helpers model
the exact behaviour of the Python string operations used by the code
(`str.strip`, `str.lower`, substring `in`, `str.split`, percent decoding),
restricted to the Unicode handling Lean's `Char` primitives provide.
-/

/-! ### Character/string helpers modelling Python primitives -/

/-- Python `str.strip()` (default whitespace) on a character list. -/
def pyStrip (l : List Char) : List Char :=
  ((l.dropWhile Char.isWhitespace).reverse.dropWhile Char.isWhitespace).reverse

/-- Python `str.strip()` on a `String`. -/
def pyStripStr (s : String) : String := String.mk (pyStrip s.data)

/-- Python `str.lower()` (ASCII-accurate; `Char.toLower` only folds ASCII). -/
def lowerStr (s : String) : String := String.mk (s.data.map Char.toLower)

/-- Python `str.upper()` (ASCII-accurate). -/
def upperStr (s : String) : String := String.mk (s.data.map Char.toUpper)

/-- Boolean list-prefix test. -/
def headMatches : List Char → List Char → Bool
  | [], _ => true
  | _ :: _, [] => false
  | a :: as, b :: bs => a == b && headMatches as bs

/-- Boolean contiguous-sublist test. -/
def listIsInfix (p : List Char) : List Char → Bool
  | [] => p.isEmpty
  | c :: rest => headMatches p (c :: rest) || listIsInfix p rest

/-- Python `needle in hay` substring test. -/
def strIn (needle hay : String) : Bool := listIsInfix needle.data hay.data

/-- Python `s.startswith(p)`. -/
def strStarts (p s : String) : Bool := headMatches p.data s.data

/-- Python `s.split(sep)` for a one-character separator (splits on every
occurrence; an empty input yields one empty field). -/
def splitListChar (sep : Char) : List Char → List (List Char)
  | [] => [[]]
  | c :: rest =>
    let r := splitListChar sep rest
    if c = sep then [] :: r
    else
      match r with
      | [] => [[c]]
      | h :: t => (c :: h) :: t

/-- Python `s.split(sep, 1)`: split at the first occurrence, if any. -/
def splitFirst (sep : Char) : List Char → Option (List Char × List Char)
  | [] => none
  | c :: rest =>
    if c = sep then some ([], rest)
    else
      match splitFirst sep rest with
      | none => none
      | some (a, b) => some (c :: a, b)

/-! ### `urllib.parse.unquote` / `parse_qsl` model -/

def isHexDigit (c : Char) : Bool :=
  (('0' ≤ c ∧ c ≤ '9') ∨ ('a' ≤ c ∧ c ≤ 'f') ∨ ('A' ≤ c ∧ c ≤ 'F') : Prop) |> decide

def hexVal (c : Char) : Nat :=
  if '0' ≤ c ∧ c ≤ '9' then c.toNat - '0'.toNat
  else if 'a' ≤ c ∧ c ≤ 'f' then c.toNat - 'a'.toNat + 10
  else if 'A' ≤ c ∧ c ≤ 'F' then c.toNat - 'A'.toNat + 10
  else 0

/-- UTF-8 encoding of one character, as byte values. -/
def charUtf8Bytes (c : Char) : List Nat :=
  let n := c.toNat
  if n < 0x80 then [n]
  else if n < 0x800 then [0xC0 + n / 64, 0x80 + n % 64]
  else if n < 0x10000 then [0xE0 + n / 4096, 0x80 + (n / 64) % 64, 0x80 + n % 64]
  else [0xF0 + n / 262144, 0x80 + (n / 4096) % 64, 0x80 + (n / 64) % 64, 0x80 + n % 64]

/-- Percent-decoding to bytes: each valid `%XX` becomes the byte `XX`, an
invalid `%` is passed through literally, other characters contribute their
UTF-8 bytes (models `urllib.parse.unquote_to_bytes`). -/
def pctToBytes : List Char → List Nat
  | [] => []
  | '%' :: a :: b :: rest =>
    if isHexDigit a ∧ isHexDigit b then (hexVal a * 16 + hexVal b) :: pctToBytes rest
    else charUtf8Bytes '%' ++ pctToBytes (a :: b :: rest)
  | '%' :: rest => charUtf8Bytes '%' ++ pctToBytes rest
  | c :: rest => charUtf8Bytes c ++ pctToBytes rest

def isContByte (b : Nat) : Bool := decide (0x80 ≤ b ∧ b ≤ 0xBF)

/-- The U+FFFD replacement character (Python `errors="replace"`). -/
def replChar : Char := Char.ofNat 0xFFFD

/-- Small UTF-8 decoder with replacement on invalid sequences (models
`bytes.decode("utf-8", errors="replace")` closely enough for the claims,
which never exercise invalid sequences). -/
def utf8Decode : List Nat → List Char
  | [] => []
  | b :: rest =>
    if b < 0x80 then Char.ofNat b :: utf8Decode rest
    else if 0xC2 ≤ b ∧ b ≤ 0xDF then
      match h : rest with
      | b2 :: rest2 =>
        if isContByte b2 then Char.ofNat ((b - 0xC0) * 64 + (b2 - 0x80)) :: utf8Decode rest2
        else replChar :: utf8Decode rest
      | [] => [replChar]
    else if 0xE0 ≤ b ∧ b ≤ 0xEF then
      match h : rest with
      | b2 :: b3 :: rest3 =>
        if isContByte b2 ∧ isContByte b3 then
          Char.ofNat ((b - 0xE0) * 4096 + (b2 - 0x80) * 64 + (b3 - 0x80)) :: utf8Decode rest3
        else replChar :: utf8Decode rest
      | _ => [replChar]
    else if 0xF0 ≤ b ∧ b ≤ 0xF4 then
      match h : rest with
      | b2 :: b3 :: b4 :: rest4 =>
        if isContByte b2 ∧ isContByte b3 ∧ isContByte b4 then
          Char.ofNat ((b - 0xF0) * 262144 + (b2 - 0x80) * 4096 + (b3 - 0x80) * 64 + (b4 - 0x80))
            :: utf8Decode rest4
        else replChar :: utf8Decode rest
      | _ => [replChar]
    else replChar :: utf8Decode rest
termination_by l => l.length
decreasing_by all_goals (simp_all; try omega)

/-- Python `urllib.parse.unquote` on a character list, including its fast
path that returns the input unchanged when it contains no `%`. -/
def unquoteChars (l : List Char) : List Char :=
  if '%' ∈ l then utf8Decode (pctToBytes l) else l

/-- Python `+` → space substitution done by `parse_qsl` before unquoting. -/
def plusToSpace (l : List Char) : List Char :=
  l.map (fun c => if c = '+' then ' ' else c)

/-- Models `urllib.parse.parse_qsl(qs, keep_blank_values=True)`: split on `&`,
skip empty fields, split each field at the first `=` (a field without `=`
keeps a blank value), then `+`-substitute and percent-decode names and
values. -/
def parseQsl (qs : String) : List (String × String) :=
  if qs = "" then []
  else
    (splitListChar '&' qs.data).filterMap fun nv =>
      if nv = [] then none
      else
        let p := match splitFirst '=' nv with
          | none => (nv, ([] : List Char))
          | some (a, b) => (a, b)
        some (String.mk (unquoteChars (plusToSpace p.1)),
              String.mk (unquoteChars (plusToSpace p.2)))

/-- The query component of a URL as `urllib.parse.urlparse` extracts it:
the fragment is split off at the first `#`, then the query is everything
after the first `?` of the remainder. -/
def urlQuery (url : String) : String :=
  let noFrag := match splitFirst '#' url.data with
    | none => url.data
    | some (a, _) => a
  match splitFirst '?' noFrag with
  | none => ""
  | some (_, q) => String.mk q

/-- Models `parsed._replace(query="").geturl()`: the URL with its query component
removed (fragment preserved). -/
def removeQuery (url : String) : String :=
  let p := match splitFirst '#' url.data with
    | none => (url.data, none)
    | some (a, b) => (a, some b)
  let noQ := match splitFirst '?' p.1 with
    | none => p.1
    | some (a, _) => a
  String.mk (noQ ++ (match p.2 with | none => [] | some f => '#' :: f))

/-! ### `payloads.py` -/

/-- Models `XSS_PAYLOADS["probe"]`. -/
def xssPayloadsProbe : List String := ["xssprobe123", "xss\x27\"<>123"]

/-- Models `XSS_PAYLOADS["html"]`. -/
def xssPayloadsHtml : List String :=
  ["<script>alert(1337)</script>", "<img src=x onerror=alert(1337)>"]

/-- Models `XSS_PAYLOADS["attr"]`. -/
def xssPayloadsAttr : List String :=
  ["\" onmouseover=\"alert(1337)", "\x27 autofocus onfocus=alert(1337) x=\x27"]

/-- Models `XSS_PAYLOADS["js"]`. -/
def xssPayloadsJs : List String := ["\x27;alert(1337);//", "\";alert(1337);//"]

/-- Models `get_probe_payloads()`. -/
def get_probe_payloads : List String := xssPayloadsProbe

/-- Models `get_context_payloads(context)`: `XSS_PAYLOADS.get(context, XSS_PAYLOADS["html"])`. -/
def get_context_payloads (context : String) : List String :=
  if context = "probe" then xssPayloadsProbe
  else if context = "html" then xssPayloadsHtml
  else if context = "attr" then xssPayloadsAttr
  else if context = "js" then xssPayloadsJs
  else xssPayloadsHtml

/-- Models `normalize_param_type`: `"unknown"` for a missing/empty (falsy) type,
otherwise `param_type.strip().lower()`. -/
def normalize_param_type (param_type : Option String) : String :=
  match param_type with
  | none => "unknown"
  | some s => if s = "" then "unknown" else lowerStr (String.mk (pyStrip s.data))

/-- Models `classify_xss_context` from `payloads.py`. -/
def classify_xss_context (param_type : Option String) : String :=
  let ptype := normalize_param_type param_type
  if ptype ∈ ["query"] then "html"
  else if ptype ∈ ["textarea", "text", "search", "email", "url", "tel", "password"] then "html"
  else if ptype ∈ ["hidden", "select"] then "attr"
  else if ptype ∈ ["number", "range", "date", "datetime-local", "time", "month", "week"] then "js"
  else if strStarts "button:" ptype then "attr"
  else "html"

/-! ### `xss.py` reflection check -/

/-- Models `html.escape(s, quote=True)`: character-wise entity escaping (the Python
implementation chains `str.replace` calls, `&` first, which is equivalent to
this character-wise map). -/
def htmlEscapeChar (c : Char) : List Char :=
  if c = '&' then "&amp;".data
  else if c = '<' then "&lt;".data
  else if c = '>' then "&gt;".data
  else if c = '"' then "&quot;".data
  else if c = '\x27' then "&#x27;".data
  else [c]

/-- Models `html.escape(s)` on a `String`. -/
def htmlEscape (s : String) : String :=
  String.mk (s.data.flatMap htmlEscapeChar)

/-- Models `is_reflected_unescaped(payload, response_text)` from `xss.py`:
`payload in response_text and html.escape(payload) not in response_text`. -/
def is_reflected_unescaped (payload response_text : String) : Bool :=
  strIn payload response_text && !(strIn (htmlEscape payload) response_text)

/-! ### `Crawler.py` data model -/

/-- The `Target` dataclass from `Crawler.py`.  Python tuples become lists;
`param_types` keeps the (name, declared type) pairs. -/
structure Target where
  url : String
  method : String
  injectable_params : List String := []
  fixed_params : List (String × String) := []
  source_url : String := ""
  form_html : Option String := none
  kind : String := "form"
  enctype : Option String := none
  csrf_param_names : List String := []
  param_types : List (String × String) := []
  submit_options : List (String × String) := []
deriving DecidableEq

/-- The dedup key tuple built inside `crawl_targets` (a record with one
field per tuple component; equality is componentwise, exactly as for the
Python tuple). -/
structure TargetKey where
  method : String
  url : String
  injectable_params : List String
  fixed_params : List (String × String)
  submit_options : List (String × String)
  csrf_param_names : List String
  enctype : Option String
  kind : String
deriving DecidableEq

/-- The dedup key tuple built inside `crawl_targets`. -/
def targetKey (t : Target) : TargetKey :=
  ⟨t.method, t.url, t.injectable_params, t.fixed_params, t.submit_options,
   t.csrf_param_names, t.enctype, t.kind⟩

/-! ### String sorting (Python `sorted` on strings) -/

/-- Lexicographic-by-code-point `≤` on character lists (Python string order). -/
def charListLe : List Char → List Char → Bool
  | [], _ => true
  | _ :: _, [] => false
  | a :: as, b :: bs =>
    if a.toNat < b.toNat then true
    else if b.toNat < a.toNat then false
    else charListLe as bs

/-- Python `s1 <= s2`. -/
def strLe (a b : String) : Bool := charListLe a.data b.data

/-- Insert into a `strLe`-sorted list. -/
def insertSorted (s : String) : List String → List String
  | [] => [s]
  | t :: rest => if strLe s t then s :: t :: rest else t :: insertSorted s rest

/-- Insertion sort by `strLe` (the order Python `sorted` uses on strings). -/
def sortStrings : List String → List String
  | [] => []
  | s :: rest => insertSorted s (sortStrings rest)

/-- Deduplicate a list of strings (models collecting into a Python `set`;
since the result is sorted afterwards, which occurrence survives is
irrelevant as long as the result is duplicate-free with the same members). -/
def dedupKeep : List String → List String
  | [] => []
  | s :: rest => if s ∈ rest then dedupKeep rest else s :: dedupKeep rest

/-- Python `sorted(set(l))` for strings. -/
def sortedSet (l : List String) : List String := sortStrings (dedupKeep l)

/-! ### `extract_get_target` from `Crawler.py` -/

/-- The guard `if key and key.strip()` of the two comprehensions. -/
def keyKept (key : String) : Bool := key ≠ "" && pyStripStr key ≠ ""

/-- Models `extract_get_target(url, source_url)`:
parse the query, drop pairs with blank (stripped-empty) keys, strip kept
keys, build the sorted unique injectable set and the ordered fixed list. -/
def extract_get_target (url source_url : String) : Option Target :=
  let q := urlQuery url
  if q = "" then none
  else
    let params := parseQsl q
    if params = [] then none
    else
      let endpoint := removeQuery url
      let injectable := sortedSet (params.filterMap fun kv =>
        if keyKept kv.1 then some (pyStripStr kv.1) else none)
      let fixed := params.filterMap fun kv =>
        if keyKept kv.1 then some (pyStripStr kv.1, kv.2) else none
      some { url := endpoint
             method := "GET"
             injectable_params := injectable
             fixed_params := fixed
             source_url := source_url
             kind := "query"
             param_types := injectable.map (fun name => (name, "query")) }

/-! ### `extract_forms` control classification from `Crawler.py`

BeautifulSoup's DOM is abstracted into a `Control` record per form control:
the tag-specific attributes are carried by `ControlKind`, and `disabled`
records the outcome of `_is_disabled` (attribute or enclosing disabled
fieldset outside its first legend).  The per-control body of the
`for control in controls` loop is translated as `processControl`. -/

structure OptTag where
  value : Option String
  text : String
  selected : Bool
deriving DecidableEq

inductive ControlKind where
  | input (itype : Option String) (value : Option String) (checked : Bool)
  | textarea (text : String)
  | selectTag (multiple : Bool) (options : List OptTag)
  | buttonTag (btype : Option String) (value : Option String)
deriving DecidableEq

structure Control where
  kind : ControlKind
  name : Option String
  disabled : Bool
deriving DecidableEq

/-- Mutable per-form state of the control loop. -/
structure FormState where
  injectable : List String := []
  fixed : List (String × String) := []
  csrfNames : List String := []
  paramTypes : List (String × String) := []
  submits : List (String × String) := []
deriving DecidableEq

def CSRF_KEYWORDS : List String :=
  ["csrf", "xsrf", "_token", "authenticity_token", "csrfmiddlewaretoken",
   "__requestverificationtoken"]

/-- Models `_looks_like_csrf(name)`. -/
def looksLikeCsrf (name : String) : Bool :=
  CSRF_KEYWORDS.any fun kw => strIn kw (lowerStr name)

/-- Python `set.add` modelled on an encounter-ordered duplicate-free list. -/
def addToSet (s : List String) (x : String) : List String :=
  if x ∈ s then s else s ++ [x]

/-- Python `dict.setdefault(name, v)` on an insertion-ordered pair list. -/
def setDefaultPair (l : List (String × String)) (name v : String) : List (String × String) :=
  if l.any (fun p => p.1 == name) then l else l ++ [(name, v)]

/-- Models `_option_value(option)`: the declared value attribute, else the trimmed
text (already trimmed in `OptTag.text`), defaulting to empty (`or ""` also
maps a declared empty value to `""`, which is the same string). -/
def optionValue (o : OptTag) : String :=
  match o.value with
  | none => o.text
  | some v => v

/-- Python `x or default` for an optional string attribute: `default` when
the attribute is missing or empty (falsy). -/
def orDefault (x : Option String) (dflt : String) : String :=
  match x with
  | none => dflt
  | some s => if s = "" then dflt else s

/-- The body of the control loop of `extract_forms`, lines 104-169 of
`Crawler.py`, acting on the per-form state. -/
def processControl (st : FormState) (c : Control) : FormState :=
  if c.disabled then st
  else
    match c.name with
    | none => st
    | some rawName =>
      if rawName = "" then st
      else
        let name := pyStripStr rawName
        if name = "" then st
        else
          let st := if looksLikeCsrf name then { st with csrfNames := addToSet st.csrfNames name }
                    else st
          match c.kind with
          | .input itypeO valueO checked =>
            let itype := lowerStr (orDefault itypeO "text")
            let st := { st with paramTypes := setDefaultPair st.paramTypes name itype }
            if itype = "hidden" then
              { st with fixed := st.fixed ++ [(name, (valueO.getD ""))] }
            else if itype = "submit" ∨ itype = "button" then
              { st with submits := st.submits ++ [(name, (valueO.getD ""))] }
            else if itype = "image" then
              { st with submits := st.submits ++ [(name ++ ".x", "0"), (name ++ ".y", "0")] }
            else if itype = "radio" then
              let st := { st with injectable := addToSet st.injectable name }
              if checked then
                { st with fixed := st.fixed ++ [(name, (match valueO with
                    | none => "on"
                    | some v => v))] }
              else st
            else if itype = "checkbox" then
              let st := { st with injectable := addToSet st.injectable name }
              if checked then
                { st with fixed := st.fixed ++ [(name, (match valueO with
                    | none => "on"
                    | some v => if v = "" then "on" else v))] }
              else st
            else if itype = "reset" ∨ itype = "file" then st
            else { st with injectable := addToSet st.injectable name }
          | .textarea txt =>
            let st := { st with paramTypes := setDefaultPair st.paramTypes name "textarea" }
            let st := { st with injectable := addToSet st.injectable name }
            { st with fixed := st.fixed ++ [(name, txt)] }
          | .selectTag multiple options =>
            let st := { st with paramTypes := setDefaultPair st.paramTypes name "select" }
            let st := { st with injectable := addToSet st.injectable name }
            if options = [] then st
            else
              let selected := options.filter (fun o => o.selected)
              if multiple then
                { st with fixed := st.fixed ++ selected.map (fun o => (name, optionValue o)) }
              else
                let chosen := match selected with
                  | o :: _ => o
                  | [] => options.headD { value := none, text := "", selected := false }
                { st with fixed := st.fixed ++ [(name, optionValue chosen)] }
          | .buttonTag btypeO valueO =>
            let btype := lowerStr (orDefault btypeO "submit")
            let st := { st with paramTypes := setDefaultPair st.paramTypes name ("button:" ++ btype) }
            if btype = "submit" ∨ btype = "button" then
              { st with submits := st.submits ++ [(name, (valueO.getD ""))] }
            else st

/-- The whole control loop over a form's controls in document order. -/
def processControls (controls : List Control) : FormState :=
  controls.foldl processControl {}

/-! ### `request.py` -/

/-- Models `RequestConfig` from `request.py`.  `retries` may be negative (Python
`int`), so it is an `Int`; the retry delay is a rational stand-in for the
Python float `0.35`. -/
structure RequestConfig where
  timeout : Int := 10
  verify_ssl : Bool := true
  allow_redirects : Bool := true
  max_redirects : Int := 10
  retries : Int := 1
  retry_delay_sec : ℚ := 7 / 20
  retry_on_status : List Int := [429, 500, 502, 503, 504]
  headers : List (String × String) := []
  proxies : Option (List (String × String)) := none
deriving DecidableEq

/-- A `requests.Response` as the scanner observes it. -/
structure HttpResponse where
  status_code : Int
  text : String
deriving DecidableEq

/-- Models `ExecutionResult` from `request.py`. -/
structure ExecutionResult where
  success : Bool
  response : Option HttpResponse
  error : Option String
  attempts : Nat
  method : String
  url : String
  tested_param : String
  payload : String
deriving DecidableEq

/-- Number of occurrences of a key (models the `existing_counts` dict,
with the emitted keys kept as a list). -/
def keyCount (k : String) : List String → Nat
  | [] => 0
  | x :: rest => (if x = k then 1 else 0) + keyCount k rest

/-- The `for key in target.injectable_params` loop of `build_request_pairs`:
append a value for each injectable key not yet present, counting as it goes. -/
def injectLoop (tested payload dflt : String) :
    List String → List (String × String) → List String → List (String × String) × List String
  | [], pairs, counts => (pairs, counts)
  | key :: rest, pairs, counts =>
    if keyCount key counts > 0 then injectLoop tested payload dflt rest pairs counts
    else if key = tested then
      injectLoop tested payload dflt rest (pairs ++ [(key, payload)]) (counts ++ [key])
    else
      injectLoop tested payload dflt rest (pairs ++ [(key, dflt)]) (counts ++ [key])

/-- Models `build_request_pairs(target, tested_param, payload, default_injectable_value)`. -/
def build_request_pairs (t : Target) (tested payload dflt : String) : List (String × String) :=
  let pairs1 := t.fixed_params.map fun kv => if kv.1 = tested then (kv.1, payload) else kv
  let counts1 := t.fixed_params.map Prod.fst
  let r := injectLoop tested payload dflt t.injectable_params pairs1 counts1
  if tested ≠ "" ∧ keyCount tested r.2 = 0 ∧ tested ∉ t.injectable_params then
    r.1 ++ [(tested, payload)]
  else r.1

/-- The three shapes `build_request_kwargs` can produce. -/
inductive RequestKwargs where
  | params (pairs : List (String × String))
  | files (fields : List (String × (Option String × String)))
  | data (pairs : List (String × String))
deriving DecidableEq

/-- Models `build_request_kwargs(target, pairs)`. -/
def build_request_kwargs (t : Target) (pairs : List (String × String)) : RequestKwargs :=
  let method := upperStr t.method
  if method = "GET" then .params pairs
  else
    let enctype := lowerStr (orDefault t.enctype "application/x-www-form-urlencoded")
    if strStarts "multipart/form-data" enctype then
      .files (pairs.map fun nv => (nv.1, (none, nv.2)))
    else .data pairs

/-- Instrumentation of the retry loop: the delays slept (each one is the
fixed `retry_delay_sec`) and the number of HTTP attempts issued. -/
structure ExecTrace where
  sleeps : List ℚ := []
  calls : Nat := 0
deriving DecidableEq

/-- Success/response/error/attempts part of an `ExecutionResult`. -/
structure ExecCore where
  success : Bool
  response : Option HttpResponse
  error : Option String
  attempts : Nat
deriving DecidableEq

/-- The `for attempt in range(1, max_attempts + 1)` loop of
`execute_target`.  `net attempt` is the outcome of `_send_once` on that
attempt: a response, or the message of the caught `requests.RequestException`
(the `Except` return models that the function never lets the exception
propagate).  `remaining` is the number of loop iterations left
(`maxAttempts - attempt + 1` at every reachable call); exhausting it is the
fall-through to the final failure return. -/
def executeLoop (net : Nat → Except String HttpResponse) (retryOn : List Int) (delay : ℚ)
    (maxAttempts : Nat) :
    Nat → Nat → Option String → ExecTrace → ExecCore × ExecTrace
  | 0, _attempt, lastError, tr =>
    (⟨false, none, some (lastError.getD "unknown request error"), maxAttempts⟩, tr)
  | remaining + 1, attempt, lastError, tr =>
    let tr1 : ExecTrace := ⟨tr.sleeps, tr.calls + 1⟩
    match net attempt with
    | .ok resp =>
      if resp.status_code ∈ retryOn ∧ attempt < maxAttempts then
        executeLoop net retryOn delay maxAttempts remaining (attempt + 1) lastError
          ⟨tr1.sleeps ++ [delay], tr1.calls⟩
      else (⟨true, some resp, none, attempt⟩, tr1)
    | .error msg =>
      if attempt < maxAttempts then
        executeLoop net retryOn delay maxAttempts remaining (attempt + 1) (some msg)
          ⟨tr1.sleeps ++ [delay], tr1.calls⟩
      else (⟨false, none, some msg, maxAttempts⟩, tr1)

/-- Models `max(1, cfg.retries + 1)` as a natural number. -/
def maxAttemptsOf (cfg : RequestConfig) : Nat := (max 1 (cfg.retries + 1)).toNat

/-- Models `execute_target(session, target, tested_param, payload, config,
default_injectable_value)` with the HTTP layer abstracted into `net`. -/
def execute_target (net : Nat → Except String HttpResponse) (target : Target)
    (tested payload : String) (cfg : RequestConfig) (dflt : String) :
    ExecutionResult × ExecTrace :=
  let pairs := build_request_pairs target tested payload dflt
  let _kwargs := build_request_kwargs target pairs
  let maxAttempts := maxAttemptsOf cfg
  let r := executeLoop net cfg.retry_on_status cfg.retry_delay_sec maxAttempts
    maxAttempts 1 none {}
  ({ success := r.1.success
     response := r.1.response
     error := r.1.error
     attempts := r.1.attempts
     method := upperStr target.method
     url := target.url
     tested_param := tested
     payload := payload }, r.2)

/-! ### `xss.py` scan model

`scan_xss` drives `execute_target` over the network; here the whole
per-request pipeline (session, config, `default_injectable_value`) is
abstracted into an oracle `exec : Target → param → payload → ExecutionResult`.
The trace instruments exactly the `execute_target` calls the source issues,
tagged with the phase that issued them. -/

/-- Models `XSSFinding` from `xss.py`. -/
structure XSSFinding where
  finding_type : String
  url : String
  method : String
  param : String
  context : String
  payload : String
  source_url : String
  status_code : Int
deriving DecidableEq

inductive ScanPhase where
  | probe
  | confirm
deriving DecidableEq

/-- One `execute_target` call issued by `scan_xss`. -/
structure ScanCall where
  target : Target
  param : String
  payload : String
  phase : ScanPhase
deriving DecidableEq

/-- The guard `if not result.success or result.response is None: continue`:
the response the loop body goes on to use, if any. -/
def attemptOk (r : ExecutionResult) : Option HttpResponse :=
  match r.response with
  | some resp => if r.success then some resp else none
  | none => none

/-- Whether one `execute_target` outcome counts as an unescaped reflection
of `payload` (the condition that sets `probe_hit` / records a finding). -/
def execReflects (ex : Target → String → String → ExecutionResult)
    (t : Target) (param payload : String) : Bool :=
  match attemptOk (ex t param payload) with
  | none => false
  | some resp => is_reflected_unescaped payload resp.text

/-- Phase 1: the probe loop over `get_probe_payloads()`, stopping at the
first hit; returns `probe_hit` and the calls issued. -/
def probeLoop (ex : Target → String → String → ExecutionResult) (t : Target) (param : String) :
    List String → Bool × List ScanCall
  | [] => (false, [])
  | pl :: rest =>
    let call : ScanCall := ⟨t, param, pl, .probe⟩
    match attemptOk (ex t param pl) with
    | none =>
      let r := probeLoop ex t param rest
      (r.1, call :: r.2)
    | some resp =>
      if is_reflected_unescaped pl resp.text then (true, [call])
      else
        let r := probeLoop ex t param rest
        (r.1, call :: r.2)

/-- Phase 2: the confirm loop over the context payloads, stopping at the
first reflecting payload with one `XSSFinding`. -/
def confirmLoop (ex : Target → String → String → ExecutionResult) (t : Target)
    (param context : String) : List String → Option XSSFinding × List ScanCall
  | [] => (none, [])
  | pl :: rest =>
    let call : ScanCall := ⟨t, param, pl, .confirm⟩
    match attemptOk (ex t param pl) with
    | none =>
      let r := confirmLoop ex t param context rest
      (r.1, call :: r.2)
    | some resp =>
      if is_reflected_unescaped pl resp.text then
        (some { finding_type := "Reflected XSS"
                url := t.url
                method := t.method
                param := param
                context := context
                payload := pl
                source_url := t.source_url
                status_code := resp.status_code }, [call])
      else
        let r := confirmLoop ex t param context rest
        (r.1, call :: r.2)

/-- Models `param_type_map(target)[param]`: a Python dict comprehension keeps the
last pair for a duplicated name. -/
def paramTypeLookup (t : Target) (param : String) : Option String :=
  (t.param_types.reverse.find? fun p => p.1 == param).map Prod.snd

/-- Models `payloads_for_param(target, param)`. -/
def payloads_for_param (t : Target) (param : String) : String × List String :=
  let context := classify_xss_context (paramTypeLookup t param)
  (context, get_context_payloads context)

/-- The body of `scan_xss` for one (target, parameter) pair: probe, then
confirm only on a probe hit. -/
def scanParam (ex : Target → String → String → ExecutionResult) (t : Target) (param : String) :
    List XSSFinding × List ScanCall :=
  let pr := probeLoop ex t param get_probe_payloads
  if pr.1 then
    let cp := payloads_for_param t param
    let cr := confirmLoop ex t param cp.1 cp.2
    (cr.1.toList, pr.2 ++ cr.2)
  else ([], pr.2)

/-- The `for param in target.injectable_params` loop. -/
def scanParams (ex : Target → String → String → ExecutionResult) (t : Target) :
    List String → List XSSFinding × List ScanCall
  | [] => ([], [])
  | param :: rest =>
    let here := scanParam ex t param
    let there := scanParams ex t rest
    (here.1 ++ there.1, here.2 ++ there.2)

/-- Models `scan_xss(targets, …)`: findings in scan order plus the instrumented
call trace.  `if not target.injectable_params: continue` is the empty-list
skip. -/
def scan_xss (ex : Target → String → String → ExecutionResult) :
    List Target → List XSSFinding × List ScanCall
  | [] => ([], [])
  | t :: rest =>
    let here := if t.injectable_params = [] then (([] : List XSSFinding), ([] : List ScanCall))
                else scanParams ex t t.injectable_params
    let there := scan_xss ex rest
    (here.1 ++ there.1, here.2 ++ there.2)

/-! ### `crawl_targets` from `Crawler.py`

The network fetch, the BeautifulSoup page parsing and RFC-3986 URL resolution
are abstracted into a `CrawlEnv` of oracle functions; the queue/visited
bookkeeping, the content-type gate, the link filtering and the
dedup-by-key accumulator are translated from the source.  `stream`
instruments the sequence of extracted page targets presented to the
accumulator, in order. -/

structure CrawlEnv where
  /-- Models `session.get(url)`: `none` is a raised `requests.RequestException`,
  otherwise the `Content-Type` header (`.get(…, "")`) and the body text. -/
  fetch : String → Option (String × String)
  /-- Models `extract_page_targets(url, html, include_submit)`. -/
  pageTargets : String → String → List Target
  /-- The `href` attributes of `soup.find_all("a")`, in document order. -/
  anchors : String → List (Option String)
  /-- Models `urllib.parse.urljoin(base, href)`. -/
  urljoin : String → String → String
  /-- Models `urllib.parse.urlparse(url).netloc`. -/
  netloc : String → String

/-- Models `is_good_link(href)` from `Crawler.py`. -/
def is_good_link (href : Option String) : Bool :=
  match href with
  | none => false
  | some h =>
    if h = "" then false
    else
      let hl := lowerStr (pyStripStr h)
      if hl = "" then false
      else if strStarts "#" hl then false
      else if strStarts "mailto:" hl ∨ strStarts "tel:" hl ∨ strStarts "javascript:" hl
              ∨ strStarts "data:" hl then false
      else true

/-- Models `urldefrag(u)[0]`: the URL up to the first `#`. -/
def defragKeep (u : String) : String :=
  match splitFirst '#' u.data with
  | none => u
  | some (a, _) => String.mk a

/-- The anchor loop: enqueue, in document order, every good link resolved
against the page, defragmented, on the base host and not yet visited. -/
def goodLinks (env : CrawlEnv) (pageUrl html baseHost : String) (visited : List String) :
    List String :=
  (env.anchors html).foldl
    (fun acc href =>
      if is_good_link href then
        match href with
        | none => acc
        | some h =>
          let absUrl := defragKeep (env.urljoin pageUrl h)
          if env.netloc absUrl = baseHost ∧ absUrl ∉ visited then acc ++ [absUrl] else acc
      else acc)
    []

/-- Models `targetKey`-keyed merge of one page's targets into the accumulator. -/
def mergeTargets (acc : List Target)
    (seen : List TargetKey) :
    List Target → List Target ×
      List TargetKey
  | [] => (acc, seen)
  | t :: rest =>
    if targetKey t ∈ seen then mergeTargets acc seen rest
    else mergeTargets (acc ++ [t]) (seen ++ [targetKey t]) rest

/-- Loop state of `crawl_targets` plus the instrumentation `stream`. -/
structure CrawlState where
  visited : List String := []
  targets : List Target := []
  seenKeys : List TargetKey := []
  stream : List Target := []

/-- The `while queue and len(visited) < max_pages` loop of `crawl_targets`,
fuel-indexed (the Python loop terminates because `visited` is capped and
every iteration pops the queue; every theorem below holds for every fuel). -/
def crawlLoop (env : CrawlEnv) (baseHost : String) (maxPages : Nat) :
    Nat → List String → CrawlState → CrawlState
  | 0, _, st => st
  | _ + 1, [], st => st
  | fuel + 1, url :: queueRest, st =>
    if st.visited.length < maxPages then
      if url ∈ st.visited then crawlLoop env baseHost maxPages fuel queueRest st
      else
        let st := { st with visited := st.visited ++ [url] }
        match env.fetch url with
        | none => crawlLoop env baseHost maxPages fuel queueRest st
        | some ct =>
          if strIn "text/html" (lowerStr ct.1) then
            let pts := env.pageTargets url ct.2
            let m := mergeTargets st.targets st.seenKeys pts
            let st := { st with targets := m.1, seenKeys := m.2, stream := st.stream ++ pts }
            let links := goodLinks env url ct.2 baseHost st.visited
            crawlLoop env baseHost maxPages fuel (queueRest ++ links) st
          else crawlLoop env baseHost maxPages fuel queueRest st
    else st

/-- Models `crawl_targets(base_url, max_pages, include_submit)`: returns the
visited list and the deduplicated target list. -/
def crawl_targets (env : CrawlEnv) (baseUrl : String) (maxPages fuel : Nat) :
    List String × List Target :=
  let st := crawlLoop env (env.netloc baseUrl) maxPages fuel [baseUrl] {}
  (st.visited, st.targets)

/-- Specification-side first-seen deduplication by `targetKey`. -/
def firstSeenDedup (seen : List TargetKey) :
    List Target → List Target
  | [] => []
  | t :: rest =>
    if targetKey t ∈ seen then firstSeenDedup seen rest
    else t :: firstSeenDedup (seen ++ [targetKey t]) rest

/-- The status-based retry condition of the attempt loop, as a predicate on
one attempt outcome (a transport error never satisfies it). -/
def statusRetryable (retryOn : List Int) : Except String HttpResponse → Prop
  | .ok r => r.status_code ∈ retryOn
  | .error _ => False

/-- Outcome is a transport error. -/
def attemptErrored : Except String HttpResponse → Prop
  | .ok _ => False
  | .error _ => True

/-! ## Theorems -/

/-- Claim C1 (code bug evidence).  The probe payload `xssprobe123` contains
no HTML-special character, so `html.escape` maps it to itself; the second
conjunct of `is_reflected_unescaped` then contradicts the first, and the
check returns `False` on EVERY response body — in particular on the spec's
scenario body that contains `xssprobe123` verbatim, which the spec says must
record a probe hit. -/
theorem c1_xssprobe_never_reflects (body : String) :
    is_reflected_unescaped "xssprobe123" body = false := by
  have h : htmlEscape "xssprobe123" = "xssprobe123" := by decide
  simp [is_reflected_unescaped, h]

/-- Claim C7 (code bug evidence).  A checked, enabled checkbox named `opt`
whose declared `value` attribute is the empty string: the code's truthiness
test `value if value else "on"` yields the fixed pair `("opt", "on")`,
whereas the claim (and the adjacent radio branch, which tests
`is not None`) require the declared value `""`. -/
theorem c7_checked_checkbox_empty_value :
    processControl {}
      { kind := .input (some "checkbox") (some "") true, name := some "opt", disabled := false } =
      { injectable := ["opt"], fixed := [("opt", "on")], csrfNames := [],
        paramTypes := [("opt", "checkbox")], submits := [] } := by
  decide

/-- Claim C4 counterexample: the declared input type `submit` is mapped to
`html` (it falls through every branch of `classify_xss_context`; only types
starting with `button:` reach the `attr` branch), not to `attr` as claimed. -/
theorem c4_submit_not_attr :
    ¬ classify_xss_context (some "submit") = "attr" := by
  decide

/-- Claim C4 as amended: query and text-like types map to `html`,
hidden/select to `attr`, numeric/temporal types to `js`; the submit-like
types that reach the `attr` branch are exactly those whose normalized form
starts with `button:` (recorded for `<button>` elements), while the plain
input types `submit` and `button` fall through to `html` with every other
unrecognized or unknown type. -/
theorem c4_amended_classification :
    classify_xss_context (some "query") = "html" ∧
    (∀ t, t ∈ ["textarea", "text", "search", "email", "url", "tel", "password"] →
      classify_xss_context (some t) = "html") ∧
    (∀ t, t ∈ ["hidden", "select"] → classify_xss_context (some t) = "attr") ∧
    (∀ t, t ∈ ["number", "range", "date", "datetime-local", "time", "month", "week"] →
      classify_xss_context (some t) = "js") ∧
    (∀ pt, strStarts "button:" (normalize_param_type pt) = true →
      classify_xss_context pt = "attr") ∧
    classify_xss_context none = "html" ∧
    classify_xss_context (some "submit") = "html" ∧
    classify_xss_context (some "button") = "html" ∧
    (∀ pt, normalize_param_type pt ∉
        ["query", "textarea", "text", "search", "email", "url", "tel", "password",
         "hidden", "select", "number", "range", "date", "datetime-local", "time",
         "month", "week"] →
      strStarts "button:" (normalize_param_type pt) = false →
      classify_xss_context pt = "html") := by
  refine ⟨by decide, ?_, ?_, ?_, ?_, by decide, by decide, by decide, ?_⟩
  · intro t ht; fin_cases ht <;> decide
  · intro t ht; fin_cases ht <;> decide
  · intro t ht; fin_cases ht <;> decide
  · intro pt h
    simp only [classify_xss_context]
    generalize hg : normalize_param_type pt = n at h ⊢
    have h1 : n ∉ (["query"] : List String) := by
      intro hm; fin_cases hm; exact absurd h (by decide)
    have h2 : n ∉ (["textarea", "text", "search", "email", "url", "tel", "password"] :
        List String) := by
      intro hm; fin_cases hm <;> exact absurd h (by decide)
    have h3 : n ∉ (["hidden", "select"] : List String) := by
      intro hm; fin_cases hm <;> exact absurd h (by decide)
    have h4 : n ∉ (["number", "range", "date", "datetime-local", "time", "month", "week"] :
        List String) := by
      intro hm; fin_cases hm <;> exact absurd h (by decide)
    simp only [List.mem_cons, List.mem_singleton, not_or] at h1 h2 h3 h4
    simp [h1, h2, h3, h4, h]
  · intro pt hmem h
    simp only [classify_xss_context]
    generalize hg : normalize_param_type pt = n at hmem h ⊢
    have h1 : n ∉ (["query"] : List String) := by
      intro hm; exact hmem (by fin_cases hm; decide)
    have h2 : n ∉ (["textarea", "text", "search", "email", "url", "tel", "password"] :
        List String) := by
      intro hm; exact hmem (by fin_cases hm <;> decide)
    have h3 : n ∉ (["hidden", "select"] : List String) := by
      intro hm; exact hmem (by fin_cases hm <;> decide)
    have h4 : n ∉ (["number", "range", "date", "datetime-local", "time", "month", "week"] :
        List String) := by
      intro hm; exact hmem (by fin_cases hm <;> decide)
    simp only [List.mem_cons, List.mem_singleton, not_or] at h1 h2 h3 h4
    simp [h1, h2, h3, h4, h]

/-- Witness for `c4_amended_classification` at a concrete input. -/
theorem c4_amended_witness : classify_xss_context (some "hidden") = "attr" :=
  c4_amended_classification.2.2.1 "hidden" (by decide)

/-! ### Lemmas about `build_request_pairs` (claim C2) -/

theorem keyCount_append (k : String) (l1 l2 : List String) :
    keyCount k (l1 ++ l2) = keyCount k l1 + keyCount k l2 := by
  induction l1 with
  | nil => simp [keyCount]
  | cons x rest ih => simp [keyCount, ih]; ring

theorem keyCount_eq_zero_iff (k : String) (l : List String) :
    keyCount k l = 0 ↔ k ∉ l := by
  induction l with
  | nil => simp [keyCount]
  | cons x rest ih =>
    by_cases h : x = k
    · subst h; simp [keyCount]
    · simp [keyCount, h, ih]
      intro hk; exact fun he => h he.symm

/-- The pairs accumulator of `injectLoop` only grows. -/
theorem injectLoop_pairs_mono (tested payload dflt : String) :
    ∀ (l : List String) (pairs : List (String × String)) (counts : List String) (x : String × String),
      x ∈ pairs → x ∈ (injectLoop tested payload dflt l pairs counts).1 := by
  intro l
  induction l with
  | nil => intro pairs counts x hx; simpa [injectLoop] using hx
  | cons key rest ih =>
    intro pairs counts x hx
    simp only [injectLoop]
    split
    · exact ih pairs counts x hx
    · split
      · exact ih _ _ x (List.mem_append_left _ hx)
      · exact ih _ _ x (List.mem_append_left _ hx)

/-- If the tested parameter is injectable and not yet counted, `injectLoop`
emits the pair `(tested, payload)`. -/
theorem injectLoop_emits_tested (tested payload dflt : String) :
    ∀ (l : List String) (pairs : List (String × String)) (counts : List String),
      tested ∈ l → keyCount tested counts = 0 →
      (tested, payload) ∈ (injectLoop tested payload dflt l pairs counts).1 := by
  intro l
  induction l with
  | nil => intro _ _ h; simp at h
  | cons key rest ih =>
    intro pairs counts hmem hc0
    simp only [injectLoop]
    by_cases hcnt : keyCount key counts > 0
    · rw [if_pos hcnt]
      have hkey : key ≠ tested := by
        intro he; subst he; omega
      have : tested ∈ rest := by
        rcases List.mem_cons.mp hmem with h | h
        · exact absurd h.symm hkey
        · exact h
      exact ih pairs counts this hc0
    · rw [if_neg hcnt]
      by_cases hkt : key = tested
      · rw [if_pos hkt]
        subst hkt
        exact injectLoop_pairs_mono _ _ _ _ _ _ _ (by simp)
      · rw [if_neg hkt]
        have : tested ∈ rest := by
          rcases List.mem_cons.mp hmem with h | h
          · exact absurd h.symm hkt
          · exact h
        have hc0' : keyCount tested (counts ++ [key]) = 0 := by
          rw [keyCount_append]
          simp [keyCount, hkt, hc0]
        exact ih _ _ this hc0'

/-- Models `injectLoop` appends to the counts only keys drawn from its list. -/
theorem injectLoop_counts_extend (tested payload dflt : String) :
    ∀ (l : List String) (pairs : List (String × String)) (counts : List String),
      ∃ extra, (injectLoop tested payload dflt l pairs counts).2 = counts ++ extra ∧
        ∀ k ∈ extra, k ∈ l := by
  intro l
  induction l with
  | nil => intro pairs counts; exact ⟨[], by simp [injectLoop]⟩
  | cons key rest ih =>
    intro pairs counts
    simp only [injectLoop]
    split
    · obtain ⟨extra, he, hsub⟩ := ih pairs counts
      exact ⟨extra, he, fun k hk => List.mem_cons_of_mem _ (hsub k hk)⟩
    · split
      · obtain ⟨extra, he, hsub⟩ := ih (pairs ++ [(key, payload)]) (counts ++ [key])
        refine ⟨[key] ++ extra, by simpa using he, ?_⟩
        intro k hk
        rcases List.mem_append.mp hk with h | h
        · simp at h; simp [h]
        · exact List.mem_cons_of_mem _ (hsub k h)
      · obtain ⟨extra, he, hsub⟩ := ih (pairs ++ [(key, dflt)]) (counts ++ [key])
        refine ⟨[key] ++ extra, by simpa using he, ?_⟩
        intro k hk
        rcases List.mem_append.mp hk with h | h
        · simp at h; simp [h]
        · exact List.mem_cons_of_mem _ (hsub k h)

/-- Claim C2 as amended: for every Target and every NON-EMPTY tested
parameter name, the pair list returned by `build_request_pairs` contains
`(tested_param, payload)` at least once, whether the name occurs in
`fixed_params`, only in `injectable_params`, or in neither. -/
theorem c2_amended_tested_always_present (t : Target) (tested payload dflt : String)
    (h : tested ≠ "") :
    (tested, payload) ∈ build_request_pairs t tested payload dflt := by
  simp only [build_request_pairs]
  by_cases hf : tested ∈ t.fixed_params.map Prod.fst
  · have hp1 : (tested, payload) ∈
        t.fixed_params.map (fun kv => if kv.1 = tested then (kv.1, payload) else kv) := by
      rcases List.mem_map.mp hf with ⟨kv, hkv, hfst⟩
      exact List.mem_map.mpr ⟨kv, hkv, by simp [hfst]⟩
    have hmem := injectLoop_pairs_mono tested payload dflt t.injectable_params _
      (t.fixed_params.map Prod.fst) _ hp1
    split
    · exact List.mem_append_left _ hmem
    · exact hmem
  · have hc0 : keyCount tested (t.fixed_params.map Prod.fst) = 0 :=
      (keyCount_eq_zero_iff _ _).mpr hf
    by_cases hi : tested ∈ t.injectable_params
    · have hmem := injectLoop_emits_tested tested payload dflt t.injectable_params
        (t.fixed_params.map (fun kv => if kv.1 = tested then (kv.1, payload) else kv))
        (t.fixed_params.map Prod.fst) hi hc0
      split
      · exact List.mem_append_left _ hmem
      · exact hmem
    · obtain ⟨extra, he, hsub⟩ := injectLoop_counts_extend tested payload dflt
        t.injectable_params
        (t.fixed_params.map (fun kv => if kv.1 = tested then (kv.1, payload) else kv))
        (t.fixed_params.map Prod.fst)
      have hc2 : keyCount tested
          (injectLoop tested payload dflt t.injectable_params
            (t.fixed_params.map (fun kv => if kv.1 = tested then (kv.1, payload) else kv))
            (t.fixed_params.map Prod.fst)).2 = 0 := by
        rw [he, keyCount_append, hc0]
        have : tested ∉ extra := fun hx => hi (hsub tested hx)
        rw [(keyCount_eq_zero_iff _ _).mpr this]
      rw [if_pos ⟨h, hc2, hi⟩]
      exact List.mem_append_right _ (by simp)

/-- Witness for `c2_amended_tested_always_present` at a concrete input. -/
theorem c2_amended_witness :
    ("q", "PAYLOAD") ∈ build_request_pairs
      { url := "http://h/f", method := "GET", injectable_params := ["q"] }
      "q" "PAYLOAD" "test" :=
  c2_amended_tested_always_present _ "q" "PAYLOAD" "test" (by decide)

/-- Claim C2 counterexample: with the EMPTY tested parameter name (absent
from both `fixed_params` and `injectable_params`), the final
`if tested_param and …` guard of `build_request_pairs` is falsy and the
pair `("", payload)` is never appended. -/
theorem c2_counterexample_empty_name :
    ("", "PAYLOAD") ∉ build_request_pairs
      { url := "http://h/f", method := "GET" } "" "PAYLOAD" "test" := by
  decide

/-! ### Lemmas about the `execute_target` attempt loop (claims C5, C6, C10) -/

/-- Shape invariant of every loop outcome: a success carries a response and
no error; a failure carries an error, no response, and reports the full
attempt budget. -/
theorem executeLoop_shape (net : Nat → Except String HttpResponse) (retryOn : List Int)
    (delay : ℚ) (M : Nat) :
    ∀ (remaining attempt : Nat) (lastError : Option String) (tr : ExecTrace),
      ((executeLoop net retryOn delay M remaining attempt lastError tr).1.success = true →
        (executeLoop net retryOn delay M remaining attempt lastError tr).1.response.isSome = true ∧
        (executeLoop net retryOn delay M remaining attempt lastError tr).1.error = none) ∧
      ((executeLoop net retryOn delay M remaining attempt lastError tr).1.success = false →
        (executeLoop net retryOn delay M remaining attempt lastError tr).1.response = none ∧
        (executeLoop net retryOn delay M remaining attempt lastError tr).1.error.isSome = true ∧
        (executeLoop net retryOn delay M remaining attempt lastError tr).1.attempts = M) := by
  intro remaining
  induction remaining with
  | zero => intro attempt lastError tr; simp [executeLoop]
  | succ k ih =>
    intro attempt lastError tr
    simp only [executeLoop]
    cases hnet : net attempt with
    | ok resp =>
      by_cases hc : resp.status_code ∈ retryOn ∧ attempt < M
      · simpa [hnet, hc] using ih (attempt + 1) lastError ⟨tr.sleeps ++ [delay], tr.calls + 1⟩
      · simp [hnet, hc]
    | error msg =>
      by_cases hc : attempt < M
      · simpa [hnet, hc] using ih (attempt + 1) (some msg) ⟨tr.sleeps ++ [delay], tr.calls + 1⟩
      · simp [hnet, hc]

/-- If every attempt from `attempt` through `M` yields a retryable-status
response, the loop sleeps once per remaining transition and returns the
attempt-`M` response as a success. -/
theorem executeLoop_all_retry (net : Nat → Except String HttpResponse) (retryOn : List Int)
    (delay : ℚ) (M : Nat) :
    ∀ (remaining attempt : Nat) (lastError : Option String) (tr : ExecTrace),
      remaining + attempt = M + 1 → 1 ≤ remaining →
      (∀ i, attempt ≤ i → i ≤ M → statusRetryable retryOn (net i)) →
      ∃ r, net M = .ok r ∧
        executeLoop net retryOn delay M remaining attempt lastError tr =
          (⟨true, some r, none, M⟩,
           ⟨tr.sleeps ++ List.replicate (M - attempt) delay,
            tr.calls + (M - attempt) + 1⟩) := by
  intro remaining
  induction remaining with
  | zero => intro attempt lastError tr h1 h2 _; omega
  | succ k ih =>
    intro attempt lastError tr hsum _ hall
    have hattM : attempt ≤ M := by omega
    have hretry := hall attempt le_rfl hattM
    cases hnet : net attempt with
    | error msg => rw [hnet] at hretry; exact absurd hretry (by simp [statusRetryable])
    | ok resp =>
      rw [hnet] at hretry
      simp only [statusRetryable] at hretry
      simp only [executeLoop, hnet]
      by_cases hlt : attempt < M
      · rw [if_pos ⟨hretry, hlt⟩]
        obtain ⟨r, hr, heq⟩ := ih (attempt + 1) lastError ⟨tr.sleeps ++ [delay], tr.calls + 1⟩
          (by omega) (by omega) (fun i hi1 hi2 => hall i (by omega) hi2)
        refine ⟨r, hr, ?_⟩
        rw [heq]
        have hMA : M - attempt = (M - (attempt + 1)) + 1 := by omega
        have hs : (tr.sleeps ++ [delay]) ++ List.replicate (M - (attempt + 1)) delay =
            tr.sleeps ++ List.replicate (M - attempt) delay := by
          rw [hMA, List.replicate_succ]; simp
        have hc : tr.calls + 1 + (M - (attempt + 1)) + 1 = tr.calls + (M - attempt) + 1 := by
          omega
        rw [hs, hc]
      · have haM : attempt = M := by omega
        rw [if_neg (fun hco => hlt hco.2)]
        refine ⟨resp, by rw [← haM, hnet], ?_⟩
        subst haM
        simp

/-- If every attempt from `attempt` through `M` raises a transport error,
the loop exhausts its budget and fails with the message of attempt `M`. -/
theorem executeLoop_all_error (net : Nat → Except String HttpResponse) (retryOn : List Int)
    (delay : ℚ) (M : Nat) :
    ∀ (remaining attempt : Nat) (lastError : Option String) (tr : ExecTrace),
      remaining + attempt = M + 1 → 1 ≤ remaining →
      (∀ i, attempt ≤ i → i ≤ M → ∃ m, net i = .error m) →
      ∃ m, net M = .error m ∧
        (executeLoop net retryOn delay M remaining attempt lastError tr).1 =
          ⟨false, none, some m, M⟩ := by
  intro remaining
  induction remaining with
  | zero => intro attempt lastError tr h1 h2 _; omega
  | succ k ih =>
    intro attempt lastError tr hsum _ hall
    have hattM : attempt ≤ M := by omega
    obtain ⟨msg, hmsg⟩ := hall attempt le_rfl hattM
    simp only [executeLoop, hmsg]
    by_cases hlt : attempt < M
    · rw [if_pos hlt]
      exact ih (attempt + 1) (some msg) ⟨tr.sleeps ++ [delay], tr.calls + 1⟩
        (by omega) (by omega) (fun i hi1 hi2 => hall i (by omega) hi2)
    · have haM : attempt = M := by omega
      rw [if_neg hlt]
      exact ⟨msg, by rw [← haM, hmsg], rfl⟩

/-- The reported attempt count lies between 1 and the budget. -/
theorem executeLoop_attempts_bounds (net : Nat → Except String HttpResponse) (retryOn : List Int)
    (delay : ℚ) (M : Nat) :
    ∀ (remaining attempt : Nat) (lastError : Option String) (tr : ExecTrace),
      remaining + attempt = M + 1 → 1 ≤ remaining → 1 ≤ attempt →
      1 ≤ (executeLoop net retryOn delay M remaining attempt lastError tr).1.attempts ∧
      (executeLoop net retryOn delay M remaining attempt lastError tr).1.attempts ≤ M := by
  intro remaining
  induction remaining with
  | zero => intro attempt lastError tr h1 h2 _; omega
  | succ k ih =>
    intro attempt lastError tr hsum _ hatt
    have hattM : attempt ≤ M := by omega
    cases hnet : net attempt with
    | ok resp =>
      by_cases hc : resp.status_code ∈ retryOn ∧ attempt < M
      · simp only [executeLoop, hnet, if_pos hc]
        exact ih (attempt + 1) lastError ⟨tr.sleeps ++ [delay], tr.calls + 1⟩
          (by omega) (by omega) (by omega)
      · simp only [executeLoop, hnet, if_neg hc]
        exact ⟨hatt, hattM⟩
    | error msg =>
      by_cases hc : attempt < M
      · simp only [executeLoop, hnet, if_pos hc]
        exact ih (attempt + 1) (some msg) ⟨tr.sleeps ++ [delay], tr.calls + 1⟩
          (by omega) (by omega) (by omega)
      · simp only [executeLoop, hnet, if_neg hc]
        exact ⟨by omega, le_rfl⟩

/-- The call counter never decreases. -/
theorem executeLoop_calls_mono (net : Nat → Except String HttpResponse) (retryOn : List Int)
    (delay : ℚ) (M : Nat) :
    ∀ (remaining attempt : Nat) (lastError : Option String) (tr : ExecTrace),
      tr.calls ≤ (executeLoop net retryOn delay M remaining attempt lastError tr).2.calls := by
  intro remaining
  induction remaining with
  | zero => intro attempt lastError tr; simp [executeLoop]
  | succ k ih =>
    intro attempt lastError tr
    cases hnet : net attempt with
    | ok resp =>
      by_cases hc : resp.status_code ∈ retryOn ∧ attempt < M
      · simp only [executeLoop, hnet, if_pos hc]
        have := ih (attempt + 1) lastError ⟨tr.sleeps ++ [delay], tr.calls + 1⟩
        simp at this; omega
      · simp only [executeLoop, hnet, if_neg hc]; simp
    | error msg =>
      by_cases hc : attempt < M
      · simp only [executeLoop, hnet, if_pos hc]
        have := ih (attempt + 1) (some msg) ⟨tr.sleeps ++ [delay], tr.calls + 1⟩
        simp at this; omega
      · simp only [executeLoop, hnet, if_neg hc]; simp

/-- At least one attempt is issued whenever the loop runs at all. -/
theorem executeLoop_calls_pos (net : Nat → Except String HttpResponse) (retryOn : List Int)
    (delay : ℚ) (M : Nat) (remaining attempt : Nat) (lastError : Option String) (tr : ExecTrace)
    (h : 1 ≤ remaining) :
    tr.calls + 1 ≤ (executeLoop net retryOn delay M remaining attempt lastError tr).2.calls := by
  cases remaining with
  | zero => omega
  | succ k =>
    cases hnet : net attempt with
    | ok resp =>
      by_cases hc : resp.status_code ∈ retryOn ∧ attempt < M
      · simp only [executeLoop, hnet, if_pos hc]
        have := executeLoop_calls_mono net retryOn delay M k (attempt + 1) lastError
          ⟨tr.sleeps ++ [delay], tr.calls + 1⟩
        simp at this; omega
      · simp only [executeLoop, hnet, if_neg hc]; simp
    | error msg =>
      by_cases hc : attempt < M
      · simp only [executeLoop, hnet, if_pos hc]
        have := executeLoop_calls_mono net retryOn delay M k (attempt + 1) (some msg)
          ⟨tr.sleeps ++ [delay], tr.calls + 1⟩
        simp at this; omega
      · simp only [executeLoop, hnet, if_neg hc]; simp

/-- Models `max(1, retries + 1)` is at least one, for any (possibly negative)
`retries`. -/
theorem one_le_maxAttemptsOf (cfg : RequestConfig) : 1 ≤ maxAttemptsOf cfg := by
  have h : (1 : Int) ≤ max 1 (cfg.retries + 1) := le_max_left _ _
  have h2 := Int.toNat_le_toNat h
  simp only [Int.toNat_one] at h2
  exact h2

/-- Claim C5: when every attempt yields a response whose status is in the
configured retryable set, `execute_target` sleeps the fixed retry delay
between consecutive attempts (`maxAttempts - 1` sleeps of
`retry_delay_sec`), and once attempts are exhausted it returns the LAST
such response as a success: success flag true, that response present,
error absent, and the full attempt count reported. -/
theorem c5_retryable_status_returns_last_response (net : Nat → Except String HttpResponse)
    (t : Target) (tested payload dflt : String) (cfg : RequestConfig)
    (h : ∀ i, 1 ≤ i → i ≤ maxAttemptsOf cfg → statusRetryable cfg.retry_on_status (net i)) :
    ∃ r, net (maxAttemptsOf cfg) = .ok r ∧
      (execute_target net t tested payload cfg dflt).1.success = true ∧
      (execute_target net t tested payload cfg dflt).1.response = some r ∧
      (execute_target net t tested payload cfg dflt).1.error = none ∧
      (execute_target net t tested payload cfg dflt).1.attempts = maxAttemptsOf cfg ∧
      (execute_target net t tested payload cfg dflt).2.sleeps =
        List.replicate (maxAttemptsOf cfg - 1) cfg.retry_delay_sec := by
  have hM := one_le_maxAttemptsOf cfg
  obtain ⟨r, hr, heq⟩ := executeLoop_all_retry net cfg.retry_on_status cfg.retry_delay_sec
    (maxAttemptsOf cfg) (maxAttemptsOf cfg) 1 none {} (by omega) (by omega)
    (fun i h1 h2 => h i h1 h2)
  refine ⟨r, hr, ?_, ?_, ?_, ?_, ?_⟩ <;> simp [execute_target, heq]

/-- Witness for `c5_retryable_status_returns_last_response`: every attempt
answers HTTP 500, which is in the default retryable set. -/
theorem c5_witness :
    (execute_target (fun _ => Except.ok ⟨500, "server error"⟩)
      { url := "http://h/f", method := "GET" } "q" "p" ({} : RequestConfig) "").1.success = true := by
  obtain ⟨r, hr, hsucc, _⟩ := c5_retryable_status_returns_last_response
    (fun _ => Except.ok ⟨500, "server error"⟩)
    { url := "http://h/f", method := "GET" } "q" "p" "" ({} : RequestConfig)
    (fun i h1 h2 => by simp [statusRetryable])
  exact hsucc

/-- Claim C6: `execute_target` is a total function of the attempt outcomes
(the caught `requests.RequestException` is data, never propagated), a
successful result always carries a response and no error, a failed result
carries no response, some error message and the exhausted attempt count,
and when every attempt raises, the reported message is the LAST attempt's
message. -/
theorem c6_result_shape (net : Nat → Except String HttpResponse) (t : Target)
    (tested payload dflt : String) (cfg : RequestConfig) :
    (((execute_target net t tested payload cfg dflt).1.success = true →
      (execute_target net t tested payload cfg dflt).1.response.isSome = true ∧
      (execute_target net t tested payload cfg dflt).1.error = none) ∧
     ((execute_target net t tested payload cfg dflt).1.success = false →
      (execute_target net t tested payload cfg dflt).1.response = none ∧
      (execute_target net t tested payload cfg dflt).1.error.isSome = true ∧
      (execute_target net t tested payload cfg dflt).1.attempts = maxAttemptsOf cfg)) ∧
    ((∀ i, 1 ≤ i → i ≤ maxAttemptsOf cfg → ∃ m, net i = .error m) →
      ∃ m, net (maxAttemptsOf cfg) = .error m ∧
        (execute_target net t tested payload cfg dflt).1.success = false ∧
        (execute_target net t tested payload cfg dflt).1.response = none ∧
        (execute_target net t tested payload cfg dflt).1.error = some m ∧
        (execute_target net t tested payload cfg dflt).1.attempts = maxAttemptsOf cfg) := by
  have hM := one_le_maxAttemptsOf cfg
  have hs := executeLoop_shape net cfg.retry_on_status cfg.retry_delay_sec
    (maxAttemptsOf cfg) (maxAttemptsOf cfg) 1 none {}
  refine ⟨⟨?_, ?_⟩, ?_⟩
  · intro h
    simp only [execute_target] at h ⊢
    exact hs.1 h
  · intro h
    simp only [execute_target] at h ⊢
    exact hs.2 h
  · intro hall
    obtain ⟨m, hm, heq⟩ := executeLoop_all_error net cfg.retry_on_status cfg.retry_delay_sec
      (maxAttemptsOf cfg) (maxAttemptsOf cfg) 1 none {} (by omega) (by omega) hall
    refine ⟨m, hm, ?_, ?_, ?_, ?_⟩ <;> simp [execute_target, heq]

/-- Witness for `c6_result_shape`: every attempt raises a transport error. -/
theorem c6_witness :
    (execute_target (fun _ => Except.error "connection refused")
      { url := "http://h/f", method := "GET" } "q" "p" ({} : RequestConfig) "").1.error =
      some "connection refused" := by
  obtain ⟨m, hm, _, _, herr, _⟩ :=
    (c6_result_shape (fun _ => Except.error "connection refused")
      { url := "http://h/f", method := "GET" } "q" "p" "" ({} : RequestConfig)).2
      (fun i h1 h2 => ⟨"connection refused", rfl⟩)
  injection hm with h2
  rw [herr, ← h2]

/-- Claim C10: for every configuration, including a zero or negative
`retries`, `execute_target` issues at least one HTTP attempt, and the
reported attempt count lies between 1 and `max(1, retries + 1)`. -/
theorem c10_attempts_bounds (net : Nat → Except String HttpResponse) (t : Target)
    (tested payload dflt : String) (cfg : RequestConfig) :
    1 ≤ (execute_target net t tested payload cfg dflt).1.attempts ∧
    (execute_target net t tested payload cfg dflt).1.attempts ≤ maxAttemptsOf cfg ∧
    1 ≤ (execute_target net t tested payload cfg dflt).2.calls := by
  have hM := one_le_maxAttemptsOf cfg
  have hb := executeLoop_attempts_bounds net cfg.retry_on_status cfg.retry_delay_sec
    (maxAttemptsOf cfg) (maxAttemptsOf cfg) 1 none {} (by omega) (by omega) (by omega)
  have hcp := executeLoop_calls_pos net cfg.retry_on_status cfg.retry_delay_sec
    (maxAttemptsOf cfg) (maxAttemptsOf cfg) 1 none {} (by omega)
  refine ⟨?_, ?_, ?_⟩
  · simp only [execute_target]
    exact hb.1
  · simp only [execute_target]
    exact hb.2
  · simp only [execute_target]
    simpa using hcp

/-! ### Lemmas about `crawl_targets` deduplication (claim C8) -/

/-- Models `mergeTargets` is exactly an append of the first-seen dedup of the new
page targets, both on the accumulator and on the key set. -/
theorem mergeTargets_eq (ts : List Target) :
    ∀ (acc : List Target) (seen : List TargetKey),
      mergeTargets acc seen ts =
        (acc ++ firstSeenDedup seen ts,
         seen ++ (firstSeenDedup seen ts).map targetKey) := by
  induction ts with
  | nil => intro acc seen; simp [mergeTargets, firstSeenDedup]
  | cons t rest ih =>
    intro acc seen
    by_cases h : targetKey t ∈ seen
    · simp [mergeTargets, firstSeenDedup, h, ih]
    · simp only [mergeTargets, firstSeenDedup, if_neg h]
      rw [ih]
      simp

/-- Keys produced by `firstSeenDedup` are duplicate-free and disjoint from
the already-seen keys. -/
theorem firstSeenDedup_keys_nodup (ts : List Target) :
    ∀ seen : List TargetKey,
      ((firstSeenDedup seen ts).map targetKey).Nodup ∧
      ∀ k ∈ (firstSeenDedup seen ts).map targetKey, k ∉ seen := by
  induction ts with
  | nil => intro seen; simp [firstSeenDedup]
  | cons t rest ih =>
    intro seen
    by_cases h : targetKey t ∈ seen
    · simpa [firstSeenDedup, h] using ih seen
    · obtain ⟨ihn, ihd⟩ := ih (seen ++ [targetKey t])
      simp only [firstSeenDedup, if_neg h, List.map_cons]
      constructor
      · refine List.nodup_cons.mpr ⟨?_, ihn⟩
        intro hc
        exact absurd (by simp : targetKey t ∈ seen ++ [targetKey t]) (ihd _ hc)
      · intro k hk
        rcases List.mem_cons.mp hk with hk | hk
        · subst hk; exact h
        · intro hks
          exact ihd k hk (by simp [hks])

/-- Every key surviving the dedup occurs among the incoming keys. -/
theorem firstSeenDedup_keys_subset (ts : List Target) :
    ∀ (seen : List TargetKey) (k : TargetKey),
      k ∈ (firstSeenDedup seen ts).map targetKey → k ∈ ts.map targetKey := by
  induction ts with
  | nil => intro seen k h; simp [firstSeenDedup] at h
  | cons t rest ih =>
    intro seen k h
    by_cases hm : targetKey t ∈ seen
    · simp only [firstSeenDedup, if_pos hm] at h
      exact List.mem_cons_of_mem _ (ih seen k h)
    · simp only [firstSeenDedup, if_neg hm, List.map_cons] at h
      rcases List.mem_cons.mp h with h | h
      · simp [h]
      · exact List.mem_cons_of_mem _ (ih _ k h)

/-- Models `firstSeenDedup` distributes over append, threading the seen keys. -/
theorem firstSeenDedup_append (l1 : List Target) :
    ∀ (l2 : List Target) (seen : List TargetKey),
      firstSeenDedup seen (l1 ++ l2) =
        firstSeenDedup seen l1 ++
          firstSeenDedup (seen ++ (firstSeenDedup seen l1).map targetKey) l2 := by
  induction l1 with
  | nil => intro l2 seen; simp [firstSeenDedup]
  | cons t rest ih =>
    intro l2 seen
    by_cases h : targetKey t ∈ seen
    · simp [firstSeenDedup, h, ih]
    · have hc : (t :: rest) ++ l2 = t :: (rest ++ l2) := rfl
      rw [hc]
      simp only [firstSeenDedup, if_neg h, List.map_cons]
      rw [ih]
      simp [List.append_assoc]

/-- The crawl-loop invariant: the seen-key set mirrors the accumulator and
the accumulator is the first-seen dedup of the target stream. -/
def crawlInv (st : CrawlState) : Prop :=
  st.seenKeys = st.targets.map targetKey ∧ st.targets = firstSeenDedup [] st.stream

theorem crawlLoop_preserves_inv (env : CrawlEnv) (baseHost : String) (maxPages : Nat) :
    ∀ (fuel : Nat) (queue : List String) (st : CrawlState), crawlInv st →
      crawlInv (crawlLoop env baseHost maxPages fuel queue st) := by
  intro fuel
  induction fuel with
  | zero => intro queue st h; simpa [crawlLoop] using h
  | succ k ih =>
    intro queue st h
    match queue with
    | [] => simpa [crawlLoop] using h
    | url :: rest =>
      by_cases hcap : st.visited.length < maxPages
      · by_cases hvis : url ∈ st.visited
        · simp only [crawlLoop, if_pos hcap, if_pos hvis]
          exact ih rest st h
        · cases hf : env.fetch url with
          | none =>
            simp only [crawlLoop, if_pos hcap, if_neg hvis, hf]
            exact ih rest _ ⟨h.1, h.2⟩
          | some ct =>
            by_cases hct : strIn "text/html" (lowerStr ct.1) = true
            · simp only [crawlLoop, if_pos hcap, if_neg hvis, hf, if_pos hct]
              apply ih
              obtain ⟨hseen, hacc⟩ := h
              constructor
              · show (mergeTargets st.targets st.seenKeys (env.pageTargets url ct.2)).2 =
                  (mergeTargets st.targets st.seenKeys (env.pageTargets url ct.2)).1.map targetKey
                rw [mergeTargets_eq]
                simp [hseen]
              · show (mergeTargets st.targets st.seenKeys (env.pageTargets url ct.2)).1 =
                  firstSeenDedup [] (st.stream ++ env.pageTargets url ct.2)
                rw [mergeTargets_eq, firstSeenDedup_append, ← hacc, hseen, hacc]
                simp
            · simp only [crawlLoop, if_pos hcap, if_neg hvis, hf, if_neg hct]
              exact ih rest _ ⟨h.1, h.2⟩
      · simp only [crawlLoop, if_neg hcap]
        exact h

/-- Claim C8: throughout any run of `crawl_targets`, targets with identical
dedup-key tuples collapse to a single accumulator entry with the
first-seen one winning (the accumulator is exactly the first-seen dedup of
the stream of extracted targets), the accumulator's keys are pairwise
distinct, and its length never exceeds the number of distinct key tuples
seen in the stream. -/
theorem c8_crawl_dedup (env : CrawlEnv) (baseUrl : String) (maxPages fuel : Nat) :
    ((crawlLoop env (env.netloc baseUrl) maxPages fuel [baseUrl] {}).targets =
      firstSeenDedup []
        (crawlLoop env (env.netloc baseUrl) maxPages fuel [baseUrl] {}).stream) ∧
    (((crawlLoop env (env.netloc baseUrl) maxPages fuel [baseUrl] {}).targets.map
      targetKey).Nodup) ∧
    ((crawl_targets env baseUrl maxPages fuel).2.length ≤
      ((crawlLoop env (env.netloc baseUrl) maxPages fuel [baseUrl] {}).stream.map
        targetKey).toFinset.card) := by
  have hinv := crawlLoop_preserves_inv env (env.netloc baseUrl) maxPages fuel [baseUrl] {}
    ⟨rfl, rfl⟩
  obtain ⟨hseen, hacc⟩ := hinv
  have hnodup : ((crawlLoop env (env.netloc baseUrl) maxPages fuel [baseUrl] {}).targets.map
      targetKey).Nodup := by
    rw [hacc]
    exact (firstSeenDedup_keys_nodup _ []).1
  refine ⟨hacc, hnodup, ?_⟩
  have hproj : (crawl_targets env baseUrl maxPages fuel).2 =
      (crawlLoop env (env.netloc baseUrl) maxPages fuel [baseUrl] {}).targets := rfl
  rw [hproj]
  set st := crawlLoop env (env.netloc baseUrl) maxPages fuel [baseUrl] {} with hst
  have hsub : ∀ k ∈ st.targets.map targetKey, k ∈ st.stream.map targetKey := by
    intro k hk
    rw [hacc] at hk
    exact firstSeenDedup_keys_subset _ [] k hk
  calc st.targets.length = (st.targets.map targetKey).length := by simp
    _ = (st.targets.map targetKey).toFinset.card := (List.toFinset_card_of_nodup hnodup).symm
    _ ≤ (st.stream.map targetKey).toFinset.card := by
        apply Finset.card_le_card
        intro k hk
        rw [List.mem_toFinset] at hk ⊢
        exact hsub k hk

/-! ### String-order and sorted-set lemmas (claim C3) -/

theorem charListLe_total : ∀ a b : List Char, charListLe a b = true ∨ charListLe b a = true := by
  intro a
  induction a with
  | nil => intro b; exact Or.inl rfl
  | cons x xs ih =>
    intro b
    cases b with
    | nil => exact Or.inr rfl
    | cons y ys =>
      by_cases h1 : x.toNat < y.toNat
      · left; simp only [charListLe]; rw [if_pos h1]
      · by_cases h2 : y.toNat < x.toNat
        · right; simp only [charListLe]; rw [if_pos h2]
        · rcases ih ys with h | h
          · left; simp only [charListLe]; rw [if_neg h1, if_neg h2]; exact h
          · right; simp only [charListLe]; rw [if_neg h2, if_neg h1]; exact h

theorem charListLe_trans : ∀ a b c : List Char,
    charListLe a b = true → charListLe b c = true → charListLe a c = true := by
  intro a
  induction a with
  | nil => intro b c _ _; rfl
  | cons x xs ih =>
    intro b c hab hbc
    cases b with
    | nil => simp [charListLe] at hab
    | cons y ys =>
      cases c with
      | nil => simp [charListLe] at hbc
      | cons z zs =>
        simp only [charListLe] at hab hbc ⊢
        by_cases h1 : x.toNat < y.toNat
        · by_cases h2 : y.toNat < z.toNat
          · rw [if_pos (by omega : x.toNat < z.toNat)]
          · rw [if_neg h2] at hbc
            by_cases h3 : z.toNat < y.toNat
            · rw [if_pos h3] at hbc; exact absurd hbc (by simp)
            · rw [if_pos (by omega : x.toNat < z.toNat)]
        · rw [if_neg h1] at hab
          by_cases h4 : y.toNat < x.toNat
          · rw [if_pos h4] at hab; exact absurd hab (by simp)
          · rw [if_neg h4] at hab
            by_cases h2 : y.toNat < z.toNat
            · rw [if_pos (by omega : x.toNat < z.toNat)]
            · rw [if_neg h2] at hbc
              by_cases h3 : z.toNat < y.toNat
              · rw [if_pos h3] at hbc; exact absurd hbc (by simp)
              · rw [if_neg h3] at hbc
                rw [if_neg (by omega : ¬ x.toNat < z.toNat),
                    if_neg (by omega : ¬ z.toNat < x.toNat)]
                exact ih ys zs hab hbc

theorem strLe_total (a b : String) : strLe a b = true ∨ strLe b a = true :=
  charListLe_total a.data b.data

theorem strLe_trans (a b c : String) (h1 : strLe a b = true) (h2 : strLe b c = true) :
    strLe a c = true :=
  charListLe_trans a.data b.data c.data h1 h2

theorem mem_insertSorted (s : String) : ∀ (l : List String) (x : String),
    x ∈ insertSorted s l ↔ x = s ∨ x ∈ l := by
  intro l
  induction l with
  | nil => intro x; simp [insertSorted]
  | cons t rest ih =>
    intro x
    simp only [insertSorted]
    by_cases h : strLe s t
    · rw [if_pos h]
      simp [List.mem_cons]
    · rw [if_neg h]
      simp only [List.mem_cons, ih x]
      tauto

theorem insertSorted_perm (s : String) :
    ∀ l : List String, List.Perm (insertSorted s l) (s :: l) := by
  intro l
  induction l with
  | nil => simp [insertSorted]
  | cons t rest ih =>
    simp only [insertSorted]
    by_cases h : strLe s t
    · rw [if_pos h]
    · rw [if_neg h]
      exact (List.Perm.cons t ih).trans (List.Perm.swap s t rest)

theorem sortStrings_perm : ∀ l : List String, List.Perm (sortStrings l) l := by
  intro l
  induction l with
  | nil => simp [sortStrings]
  | cons s rest ih =>
    simp only [sortStrings]
    exact (insertSorted_perm s (sortStrings rest)).trans (List.Perm.cons s ih)

theorem insertSorted_sorted (s : String) : ∀ l : List String,
    l.Pairwise (fun a b => strLe a b = true) →
    (insertSorted s l).Pairwise (fun a b => strLe a b = true) := by
  intro l
  induction l with
  | nil => intro _; simp [insertSorted]
  | cons t rest ih =>
    intro hp
    rcases List.pairwise_cons.mp hp with ⟨ht, hrest⟩
    simp only [insertSorted]
    by_cases h : strLe s t
    · rw [if_pos h]
      refine List.pairwise_cons.mpr ⟨?_, hp⟩
      intro b hb
      rcases List.mem_cons.mp hb with hb | hb
      · subst hb; exact h
      · exact strLe_trans s t b h (ht b hb)
    · rw [if_neg h]
      refine List.pairwise_cons.mpr ⟨?_, ih hrest⟩
      intro b hb
      rcases (mem_insertSorted s rest b).mp hb with hb | hb
      · rw [hb]
        rcases strLe_total s t with h2 | h2
        · exact absurd h2 h
        · exact h2
      · exact ht b hb

theorem sortStrings_sorted : ∀ l : List String,
    (sortStrings l).Pairwise (fun a b => strLe a b = true) := by
  intro l
  induction l with
  | nil => simp [sortStrings]
  | cons s rest ih =>
    simp only [sortStrings]
    exact insertSorted_sorted s _ ih

theorem mem_dedupKeep : ∀ (l : List String) (x : String), x ∈ dedupKeep l ↔ x ∈ l := by
  intro l
  induction l with
  | nil => intro x; simp [dedupKeep]
  | cons s rest ih =>
    intro x
    simp only [dedupKeep]
    by_cases h : s ∈ rest
    · rw [if_pos h, ih x]
      constructor
      · exact fun hx => List.mem_cons_of_mem _ hx
      · intro hx
        rcases List.mem_cons.mp hx with hx | hx
        · subst hx; exact h
        · exact hx
    · rw [if_neg h]
      simp [List.mem_cons, ih x]

theorem dedupKeep_nodup : ∀ l : List String, (dedupKeep l).Nodup := by
  intro l
  induction l with
  | nil => simp [dedupKeep]
  | cons s rest ih =>
    simp only [dedupKeep]
    by_cases h : s ∈ rest
    · rw [if_pos h]; exact ih
    · rw [if_neg h]
      refine List.nodup_cons.mpr ⟨?_, ih⟩
      rw [mem_dedupKeep]
      exact h

theorem mem_sortedSet (l : List String) (x : String) : x ∈ sortedSet l ↔ x ∈ l := by
  unfold sortedSet
  rw [(sortStrings_perm (dedupKeep l)).mem_iff, mem_dedupKeep]

theorem sortedSet_nodup (l : List String) : (sortedSet l).Nodup :=
  ((sortStrings_perm (dedupKeep l)).nodup_iff).mpr (dedupKeep_nodup l)

theorem sortedSet_sorted (l : List String) :
    (sortedSet l).Pairwise (fun a b => strLe a b = true) :=
  sortStrings_sorted (dedupKeep l)

/-- Claim C3 counterexample: for the page URL `http://h/p?=5&a=1`, the
query parses to the pairs `[("", "5"), ("a", "1")]`, but the produced
target's `fixed_params` is `[("a", "1")]` — the blank-key pair is dropped
by the `if key and key.strip()` guard, so `fixed_params` is NOT every
original pair of the query in order. -/
theorem c3_counterexample_blank_key :
    ¬ ((extract_get_target "http://h/p?=5&a=1" "s").map Target.fixed_params =
       some (parseQsl (urlQuery "http://h/p?=5&a=1"))) := by
  decide

/-- Claim C3 as amended: a query target is produced exactly when the URL
has a query component that parses to at least one pair; its
`injectable_params` is the duplicate-free, sorted list of the STRIPPED
keys of the pairs whose key is non-blank (truthy and stripping to
non-empty), and its `fixed_params` keeps those same pairs in order with
keys stripped, dropping pairs whose key is blank; blank values and
duplicate keys among the kept pairs are preserved. -/
theorem c3_amended_query_target (url src : String) :
    ((urlQuery url = "" ∨ parseQsl (urlQuery url) = []) →
      extract_get_target url src = none) ∧
    (∀ t, extract_get_target url src = some t →
      t.fixed_params = (parseQsl (urlQuery url)).filterMap
        (fun kv => if keyKept kv.1 then some (pyStripStr kv.1, kv.2) else none) ∧
      (∀ k, k ∈ t.injectable_params ↔
        ∃ kv, kv ∈ parseQsl (urlQuery url) ∧ keyKept kv.1 = true ∧ pyStripStr kv.1 = k) ∧
      t.injectable_params.Nodup ∧
      t.injectable_params.Pairwise (fun a b => strLe a b = true) ∧
      t.kind = "query" ∧ t.method = "GET") := by
  constructor
  · intro h
    rcases h with h | h
    · simp [extract_get_target, h]
    · by_cases hq : urlQuery url = ""
      · simp [extract_get_target, hq]
      · simp [extract_get_target, hq, h]
  · intro t ht
    by_cases hq : urlQuery url = ""
    · simp [extract_get_target, hq] at ht
    · by_cases hp : parseQsl (urlQuery url) = []
      · simp [extract_get_target, hq, hp] at ht
      · simp only [extract_get_target, if_neg hq, if_neg hp, Option.some.injEq] at ht
        subst ht
        refine ⟨rfl, ?_, sortedSet_nodup _, sortedSet_sorted _, rfl, rfl⟩
        intro k
        rw [mem_sortedSet, List.mem_filterMap]
        constructor
        · rintro ⟨kv, hkv, hf⟩
          by_cases hkk : keyKept kv.1 = true
          · rw [if_pos hkk] at hf
            exact ⟨kv, hkv, hkk, Option.some.inj hf⟩
          · rw [if_neg hkk] at hf
            cases hf
        · rintro ⟨kv, hkv, hkk, hstrip⟩
          exact ⟨kv, hkv, by rw [if_pos hkk, hstrip]⟩

/-- Witness for `c3_amended_query_target` at concrete inputs: a URL with no
query component yields no query target, and `http://h/p?id=5&id=6` yields a
target whose fixed pairs keep both duplicates. -/
theorem c3_amended_witness :
    extract_get_target "http://h/p" "s" = none ∧
    ∀ t, extract_get_target "http://h/p?id=5&id=6" "s" = some t →
      t.fixed_params = (parseQsl (urlQuery "http://h/p?id=5&id=6")).filterMap
        (fun kv => if keyKept kv.1 then some (pyStripStr kv.1, kv.2) else none) := by
  constructor
  · exact (c3_amended_query_target "http://h/p" "s").1 (Or.inl (by decide))
  · intro t ht
    exact ((c3_amended_query_target "http://h/p?id=5&id=6" "s").2 t ht).1

/-! ### Lemmas about the two-phase scan (claim C9) -/

/-- When no probe payload reflects, the probe loop reports no hit and its
trace is exactly one probe-phase call per payload. -/
theorem probeLoop_no_hit (ex : Target → String → String → ExecutionResult) (t : Target)
    (param : String) :
    ∀ pls : List String, (∀ pl ∈ pls, execReflects ex t param pl = false) →
      probeLoop ex t param pls =
        (false, pls.map fun pl => ⟨t, param, pl, ScanPhase.probe⟩) := by
  intro pls
  induction pls with
  | nil => intro _; rfl
  | cons pl rest ih =>
    intro h
    have hpl := h pl (by simp)
    have hrest := ih fun p hp => h p (List.mem_cons_of_mem _ hp)
    cases ha : attemptOk (ex t param pl) with
    | none => simp [probeLoop, ha, hrest]
    | some resp =>
      have hrefl : is_reflected_unescaped pl resp.text = false := by
        simpa [execReflects, ha] using hpl
      simp [probeLoop, ha, hrefl, hrest]

/-- Every probe-loop trace entry carries the loop's target, parameter and
the probe phase. -/
theorem probeLoop_trace (ex : Target → String → String → ExecutionResult) (t : Target)
    (param : String) :
    ∀ (pls : List String) (c : ScanCall), c ∈ (probeLoop ex t param pls).2 →
      c.target = t ∧ c.param = param ∧ c.phase = ScanPhase.probe := by
  intro pls
  induction pls with
  | nil => intro c hc; simp [probeLoop] at hc
  | cons pl rest ih =>
    intro c hc
    cases ha : attemptOk (ex t param pl) with
    | none =>
      simp only [probeLoop, ha] at hc
      rcases List.mem_cons.mp hc with hc | hc
      · subst hc; exact ⟨rfl, rfl, rfl⟩
      · exact ih c hc
    | some resp =>
      by_cases hrefl : is_reflected_unescaped pl resp.text = true
      · simp only [probeLoop, ha, if_pos hrefl] at hc
        rcases List.mem_cons.mp hc with hc | hc
        · subst hc; exact ⟨rfl, rfl, rfl⟩
        · simp at hc
      · simp only [probeLoop, ha, if_neg hrefl] at hc
        rcases List.mem_cons.mp hc with hc | hc
        · subst hc; exact ⟨rfl, rfl, rfl⟩
        · exact ih c hc

/-- Every confirm-loop trace entry carries the loop's target, parameter and
the confirm phase. -/
theorem confirmLoop_trace (ex : Target → String → String → ExecutionResult) (t : Target)
    (param context : String) :
    ∀ (pls : List String) (c : ScanCall), c ∈ (confirmLoop ex t param context pls).2 →
      c.target = t ∧ c.param = param ∧ c.phase = ScanPhase.confirm := by
  intro pls
  induction pls with
  | nil => intro c hc; simp [confirmLoop] at hc
  | cons pl rest ih =>
    intro c hc
    cases ha : attemptOk (ex t param pl) with
    | none =>
      simp only [confirmLoop, ha] at hc
      rcases List.mem_cons.mp hc with hc | hc
      · subst hc; exact ⟨rfl, rfl, rfl⟩
      · exact ih c hc
    | some resp =>
      by_cases hrefl : is_reflected_unescaped pl resp.text = true
      · simp only [confirmLoop, ha, if_pos hrefl] at hc
        rcases List.mem_cons.mp hc with hc | hc
        · subst hc; exact ⟨rfl, rfl, rfl⟩
        · simp at hc
      · simp only [confirmLoop, ha, if_neg hrefl] at hc
        rcases List.mem_cons.mp hc with hc | hc
        · subst hc; exact ⟨rfl, rfl, rfl⟩
        · exact ih c hc

/-- Every `scanParam` trace entry carries the scanned target and parameter. -/
theorem scanParam_trace (ex : Target → String → String → ExecutionResult) (t : Target)
    (param : String) (c : ScanCall) (hc : c ∈ (scanParam ex t param).2) :
    c.target = t ∧ c.param = param := by
  simp only [scanParam] at hc
  by_cases hhit : (probeLoop ex t param get_probe_payloads).1 = true
  · rw [if_pos hhit] at hc
    rcases List.mem_append.mp hc with hc | hc
    · obtain ⟨h1, h2, _⟩ := probeLoop_trace ex t param _ c hc
      exact ⟨h1, h2⟩
    · obtain ⟨h1, h2, _⟩ := confirmLoop_trace ex t param _ _ c hc
      exact ⟨h1, h2⟩
  · rw [if_neg hhit] at hc
    obtain ⟨h1, h2, _⟩ := probeLoop_trace ex t param _ c hc
    exact ⟨h1, h2⟩

/-- A parameter with no reflecting probe payload contributes no finding and
only probe-phase calls. -/
theorem scanParam_no_probe_hit (ex : Target → String → String → ExecutionResult) (t : Target)
    (param : String)
    (h : ∀ pl ∈ get_probe_payloads, execReflects ex t param pl = false) :
    (scanParam ex t param).1 = [] ∧
    ∀ c ∈ (scanParam ex t param).2, c.phase = ScanPhase.probe := by
  have hp := probeLoop_no_hit ex t param get_probe_payloads h
  constructor
  · simp [scanParam, hp]
  · intro c hc
    simp only [scanParam, hp] at hc
    simp at hc
    obtain ⟨pl, _, hc⟩ := hc
    rw [← hc]

/-- Trace entries of the per-target parameter loop originate from some
scanned parameter. -/
theorem scanParams_trace_origin (ex : Target → String → String → ExecutionResult)
    (t' : Target) :
    ∀ (params : List String) (c : ScanCall), c ∈ (scanParams ex t' params).2 →
      ∃ p, p ∈ params ∧ c ∈ (scanParam ex t' p).2 := by
  intro params
  induction params with
  | nil => intro c hc; simp [scanParams] at hc
  | cons p rest ih =>
    intro c hc
    simp only [scanParams] at hc
    rcases List.mem_append.mp hc with hc | hc
    · exact ⟨p, by simp, hc⟩
    · obtain ⟨p2, hp2, hc2⟩ := ih c hc
      exact ⟨p2, List.mem_cons_of_mem _ hp2, hc2⟩

/-- Trace entries of the whole scan originate from some target's scanned
parameter. -/
theorem scan_xss_trace_origin (ex : Target → String → String → ExecutionResult) :
    ∀ (targets : List Target) (c : ScanCall), c ∈ (scan_xss ex targets).2 →
      ∃ t', t' ∈ targets ∧ ∃ p, p ∈ t'.injectable_params ∧ c ∈ (scanParam ex t' p).2 := by
  intro targets
  induction targets with
  | nil => intro c hc; simp [scan_xss] at hc
  | cons t' rest ih =>
    intro c hc
    simp only [scan_xss] at hc
    by_cases he : t'.injectable_params = []
    · rw [if_pos he] at hc
      simp at hc
      obtain ⟨t2, ht2, hp⟩ := ih c hc
      exact ⟨t2, List.mem_cons_of_mem _ ht2, hp⟩
    · rw [if_neg he] at hc
      rcases List.mem_append.mp hc with hc | hc
      · obtain ⟨p, hp, hc2⟩ := scanParams_trace_origin ex t' t'.injectable_params c hc
        exact ⟨t', by simp, p, hp, hc2⟩
      · obtain ⟨t2, ht2, hp⟩ := ih c hc
        exact ⟨t2, List.mem_cons_of_mem _ ht2, hp⟩

/-- Claim C9: if no probe payload produces an unescaped verbatim reflection
for `(t, param)`, then that pair contributes no finding, its own scan
issues only probe-phase calls, and in every run of `scan_xss` no
confirm-phase call is ever issued for `(t, param)`. -/
theorem c9_no_confirm_without_probe_hit (ex : Target → String → String → ExecutionResult)
    (t : Target) (param : String)
    (h : ∀ pl ∈ get_probe_payloads, execReflects ex t param pl = false) :
    (scanParam ex t param).1 = [] ∧
    (∀ c ∈ (scanParam ex t param).2, c.phase = ScanPhase.probe) ∧
    ∀ (targets : List Target), ∀ c ∈ (scan_xss ex targets).2,
      c.target = t → c.param = param → c.phase = ScanPhase.probe := by
  obtain ⟨hfind, htrace⟩ := scanParam_no_probe_hit ex t param h
  refine ⟨hfind, htrace, ?_⟩
  intro targets c hc hct hcp
  obtain ⟨t', ht', p, hp, hc2⟩ := scan_xss_trace_origin ex targets c hc
  obtain ⟨he1, he2⟩ := scanParam_trace ex t' p c hc2
  have ht2 : t' = t := he1.symm.trans hct
  have hp2 : p = param := he2.symm.trans hcp
  subst ht2; subst hp2
  exact htrace c hc2

/-- Witness for `c9_no_confirm_without_probe_hit`: an oracle whose every
request fails in transport, a target with one injectable parameter. -/
theorem c9_witness :
    (scanParam
      (fun _ _ _ => ⟨false, none, some "connection refused", 2, "GET", "http://h/f", "q", "pl"⟩)
      { url := "http://h/f", method := "GET", injectable_params := ["q"] } "q").1 = [] :=
  (c9_no_confirm_without_probe_hit
    (fun _ _ _ => ⟨false, none, some "connection refused", 2, "GET", "http://h/f", "q", "pl"⟩)
    { url := "http://h/f", method := "GET", injectable_params := ["q"] } "q" (by decide)).1
